import Mathlib

/-!
Verification of the constellation-matching and star-detection core of the
NASA-AI-i-Oli repository.

The development shallowly embeds the Python sources:

* `python/constellation_tools.py` — `ConstellationMatcher.ransac_match`,
  `find_constellation_matches`, `find_specific_constellation`,
  `get_constellation_by_name`, `apply_transformation`;
* `python/miquel/star_detection_tools.py` — the automated minimum-size
  component filter inside `process_image`.

Modelling conventions:

* Points are pairs of rationals (the Python code works on float32; all the
  verified properties are about exact arithmetic relationships, so ℚ is used
  and distances are compared squared: `d < t` for Euclidean distances with a
  nonnegative threshold is `d² < t²`).
* `cv2.estimateAffinePartial2D` and `np.cos`/`np.sin` are external library
  calls.  They are modelled by an explicit environment `CvEnv`: an arbitrary
  estimator function together with an arbitrary cosine/sine table for the
  tested integer angles (degrees).  Properties of the estimator that the code
  relies on are stated as explicit assumptions (`FitSound`, `FitNondeg`)
  reflecting the documented behaviour of `estimateAffinePartial2D`: it returns
  a partial-affine matrix [[a, -b, tx], [b, a, ty]] together with an inlier
  mask whose marked correspondences have reprojection error within
  `ransacReprojThreshold`.
* The `final_scale` reported by the source is `sqrt(a² + b²)`; the embedding
  stores the radicand `final_scale_sq = a² + b²` (a rational), and states
  positivity of `final_scale` as positivity of `Real.sqrt final_scale_sq`.
-/

namespace ConstellationTools

/-- A 2-D point (x, y), as in the rows of the numpy arrays of the source. -/
abbrev Pt : Type := ℚ × ℚ

/-- Squared Euclidean distance between two points.  The source compares plain
Euclidean distances (`scipy.spatial.distance.cdist`) with thresholds; the
embedding compares squares, which is equivalent for nonnegative thresholds and
keeps every quantity rational. -/
def sqDist (p q : Pt) : ℚ :=
  (p.1 - q.1) ^ 2 + (p.2 - q.2) ^ 2

/-- Uniform scaling of a point, `pattern_centroids * scale`. -/
def scalePt (s : ℚ) (p : Pt) : Pt :=
  (s * p.1, s * p.2)

/-- Application of the standard 2×2 rotation matrix [[c, -s], [s, c]] to a row
point, `np.dot(points, rotation_matrix.T)`. -/
def rotPt (c s : ℚ) (p : Pt) : Pt :=
  (c * p.1 - s * p.2, s * p.1 + c * p.2)

/-- A 2×3 affine matrix [[m00, m01, m02], [m10, m11, m12]], the shape returned
by `cv2.estimateAffinePartial2D`. -/
structure Mat23 where
  m00 : ℚ
  m01 : ℚ
  m02 : ℚ
  m10 : ℚ
  m11 : ℚ
  m12 : ℚ
deriving DecidableEq, Repr

/-- Application of a 2×3 affine matrix to a point in homogeneous coordinates,
`np.hstack([points, ones]) @ transformation_matrix.T`. -/
def applyAff (m : Mat23) (p : Pt) : Pt :=
  (m.m00 * p.1 + m.m01 * p.2 + m.m02, m.m10 * p.1 + m.m11 * p.2 + m.m12)

/-- `ConstellationMatcher.apply_transformation`: rotate by the angle whose
cosine/sine pair is `(c, s)`, then apply the 2×3 affine matrix. -/
def apply_transformation (m : Mat23) (c s : ℚ) (p : Pt) : Pt :=
  applyAff m (rotPt c s p)

/-- Indexing into the background point list (`background_centroids[i]`).  All
indices produced by the matcher are in range, so the default is never read. -/
def getPt (bg : List Pt) (i : ℕ) : Pt :=
  bg.getD i (0, 0)

/-- Tail of the first-occurrence argmin scan: fold over the remaining points,
replacing the current best only on a strictly smaller squared distance, exactly
the tie-breaking of `np.argmin` (first minimal index wins). -/
def nnAux (p : Pt) : List Pt → ℕ → ℕ × ℚ → ℕ × ℚ
  | [], _, best => best
  | q :: rest, i, best =>
      nnAux p rest (i + 1) (if sqDist p q < best.2 then (i, sqDist p q) else best)

/-- Nearest neighbour of `p` in the background set: index of the first point at
minimal (squared) distance together with that squared distance.  Models
`np.argmin(distances, axis=1)` and `np.min(distances, axis=1)` for one row.
The empty case is unreachable in `ransac_match` (guarded by `len ≥ 3`). -/
def nearestNeighbor (p : Pt) : List Pt → ℕ × ℚ
  | [] => (0, 0)
  | q :: rest => nnAux p rest 1 (0, sqDist p q)

/-- `np.linspace(a, b, n)`: `n` evenly spaced rationals from `a` to `b`
inclusive; `[a]` when `n = 1`, `[]` when `n = 0`. -/
def linspace (a b : ℚ) (n : ℕ) : List ℚ :=
  if n ≤ 1 then (List.range n).map (fun _ => a)
  else (List.range n).map (fun i => a + i * (b - a) / ((n : ℚ) - 1))

/-- `range(0, 360, rotation_step)`: the multiples of `rotation_step` below
360, in increasing order.  A zero step raises in Python and is modelled as an
empty grid. -/
def rotationAngles (step : ℕ) : List ℕ :=
  if step = 0 then [] else (List.range ((359 + step) / step)).map (· * step)

/-- Boolean-mask selection, `array[mask.astype(bool)]`. -/
def maskFilter : List Bool → List ℕ → List ℕ
  | b :: bs, x :: xs => if b then x :: maskFilter bs xs else maskFilter bs xs
  | _, _ => []

/-- Boolean-mask selection on an arbitrary element type (same recursion as
`maskFilter`; used to track which original pattern points the inlier mask
selects). -/
def maskSelect {α : Type} : List Bool → List α → List α
  | b :: bs, x :: xs => if b then x :: maskSelect bs xs else maskSelect bs xs
  | _, _ => []

/-- Environment of external library calls made by `ransac_match`. -/
structure CvEnv where
  /-- Model of `cv2.estimateAffinePartial2D(src, dst, method=cv2.RANSAC,
  ransacReprojThreshold, maxIters, confidence)`.  Arguments: threshold,
  maxIters, confidence, source points, destination points.  `none` models both
  a `None` return and a raised `cv2.error` (the source skips the hypothesis in
  either case). -/
  estimateAffinePartial2D : ℚ → ℕ → ℚ → List Pt → List Pt → Option (Mat23 × List Bool)
  /-- Model of `(np.cos(np.radians(angle)), np.sin(np.radians(angle)))` for an
  integer angle in degrees. -/
  cosSin : ℕ → ℚ × ℚ

/-- Matching configuration: the keyword arguments of `ransac_match`. -/
structure MatchConfig where
  ransac_threshold : ℚ
  min_inliers : ℕ
  max_iters : ℕ
  confidence : ℚ
  rotation_step : ℕ
  scale_min : ℚ
  scale_max : ℚ
  scale_steps : ℕ
deriving Repr

/-- The match dictionary built by `ransac_match`.  `final_scale_sq` is the
radicand of the reported `final_scale = sqrt(a² + b²)`. -/
structure MatchResult where
  rotation_angle : ℕ
  tested_scale : ℚ
  final_scale_sq : ℚ
  inliers_ratio : ℚ
  inliers_count : ℕ
  transformation_matrix : Mat23
  matched_indices : List ℕ
deriving DecidableEq, Repr

/-- The pattern after the per-hypothesis transform: uniform scaling followed by
rotation by the hypothesis angle (`scaled_pattern = pattern * scale` and then
`np.dot(scaled_pattern, rotation_matrix.T)`). -/
def transformedPattern (env : CvEnv) (scale : ℚ) (angle : ℕ) (pat : List Pt) : List Pt :=
  pat.map (fun p => rotPt (env.cosSin angle).1 (env.cosSin angle).2 (scalePt scale p))

/-- Per-hypothesis correspondences surviving the distance filter: each
transformed pattern point paired with (index of, squared distance to) its
nearest background neighbour, keeping those with distance below the threshold
(`valid_matches = matches_distances < ransac_threshold`). -/
def validCorrespondences (env : CvEnv) (cfg : MatchConfig) (pat bg : List Pt)
    (scale : ℚ) (angle : ℕ) : List (Pt × ℕ × ℚ) :=
  (((transformedPattern env scale angle pat).map
      (fun q => (q, nearestNeighbor q bg))).filter
    (fun t => t.2.2 < cfg.ransac_threshold ^ 2))

/-- The original (untransformed) pattern points, in pattern order, whose
correspondence survives the distance filter of the (scale, angle) hypothesis:
the pre-image of `validCorrespondences` under the per-hypothesis transform. -/
def surviving_pattern_points (env : CvEnv) (cfg : MatchConfig) (pat bg : List Pt)
    (scale : ℚ) (angle : ℕ) : List Pt :=
  pat.filter (fun p => decide ((nearestNeighbor
    (rotPt (env.cosSin angle).1 (env.cosSin angle).2 (scalePt scale p)) bg).2
      < cfg.ransac_threshold ^ 2))

/-- The inlier pattern points of the (scale, angle) hypothesis, in pattern
order: the original pattern points whose correspondence survived the distance
filter and was then marked as an inlier by the estimator.  The list is
positionally aligned with the `matched_indices` of the result built from this
hypothesis: its i-th entry is the i-th inlier pattern point, the one matched
to background index `matched_indices[i]`. -/
def inlier_pattern_points (env : CvEnv) (cfg : MatchConfig) (pat bg : List Pt)
    (scale : ℚ) (angle : ℕ) : List Pt :=
  match env.estimateAffinePartial2D cfg.ransac_threshold cfg.max_iters cfg.confidence
      ((validCorrespondences env cfg pat bg scale angle).map (fun t => t.1))
      (((validCorrespondences env cfg pat bg scale angle).map (fun t => t.2.1)).map (getPt bg)) with
  | none => []
  | some mm => maskSelect mm.2 (surviving_pattern_points env cfg pat bg scale angle)

/-- Body of the double loop of `ransac_match` for one (scale, angle)
hypothesis: distance-filtered nearest-neighbour correspondences, the
`min_inliers` and `≥ 3` guards, then the robust fit; `none` when the
hypothesis is skipped. -/
def evalHypothesis (env : CvEnv) (cfg : MatchConfig) (pat bg : List Pt)
    (scale : ℚ) (angle : ℕ) : Option MatchResult :=
  let valid := validCorrespondences env cfg pat bg scale angle
  if valid.length < cfg.min_inliers then none
  else if valid.length < 3 then none
  else
    let src := valid.map (fun t => t.1)
    let dstIdx := valid.map (fun t => t.2.1)
    let dst := dstIdx.map (getPt bg)
    match env.estimateAffinePartial2D cfg.ransac_threshold cfg.max_iters
        cfg.confidence src dst with
    | none => none
    | some (m, inliers) =>
        some { rotation_angle := angle
               tested_scale := scale
               final_scale_sq := m.m00 ^ 2 + m.m10 ^ 2
               inliers_ratio := (inliers.count true : ℚ) / (pat.length : ℚ)
               inliers_count := inliers.count true
               transformation_matrix := m
               matched_indices := maskFilter inliers dstIdx }

/-- One step of the best-so-far state update: `best_match` is replaced exactly
when the hypothesis produced a model and
`num_inliers > best_inliers and num_inliers >= min_inliers`. -/
def ransacStep (cfg : MatchConfig) (st : Option MatchResult × ℕ)
    (r? : Option MatchResult) : Option MatchResult × ℕ :=
  match r? with
  | none => st
  | some r =>
      if st.2 < r.inliers_count ∧ cfg.min_inliers ≤ r.inliers_count then
        (some r, r.inliers_count)
      else st

/-- `ConstellationMatcher.ransac_match`: the `< 3` input guard, then the scale
loop (outer, over `np.linspace(scale_range[0], scale_range[1], scale_steps)`)
and the rotation loop (inner, over `range(0, 360, rotation_step)`), folding
the best-so-far state `(best_match, best_inliers)` initialised to
`(None, 0)`. -/
def ransac_match (env : CvEnv) (cfg : MatchConfig) (pat bg : List Pt) :
    Option MatchResult :=
  if pat.length < 3 ∨ bg.length < 3 then none
  else
    ((linspace cfg.scale_min cfg.scale_max cfg.scale_steps).foldl
      (fun st scale =>
        (rotationAngles cfg.rotation_step).foldl
          (fun st2 angle => ransacStep cfg st2 (evalHypothesis env cfg pat bg scale angle))
          st)
      (none, 0)).1

/-- Number of hypotheses of the grid that reach the robust-fit call, i.e. that
pass both the `min_inliers` and the `≥ 3` correspondence guards (the source
reaches `cv2.estimateAffinePartial2D` exactly then).  Zero when the `< 3`
input guard returns early. -/
def fit_attempts (env : CvEnv) (cfg : MatchConfig) (pat bg : List Pt) : ℕ :=
  if pat.length < 3 ∨ bg.length < 3 then 0
  else
    (((linspace cfg.scale_min cfg.scale_max cfg.scale_steps).flatMap
        (fun scale => (rotationAngles cfg.rotation_step).map (fun angle => (scale, angle)))).filter
      (fun h =>
        let valid := validCorrespondences env cfg pat bg h.1 h.2
        decide (cfg.min_inliers ≤ valid.length) && decide (3 ≤ valid.length))).length

/-- Soundness contract of the modelled `cv2.estimateAffinePartial2D`: when a
model and an inlier mask are returned, the mask has one entry per source
point, the matrix has the documented partial-affine shape
[[a, -b, tx], [b, a, ty]], and every marked correspondence has reprojection
error within `ransacReprojThreshold` (squared comparison). -/
def FitSound (fit : ℚ → ℕ → ℚ → List Pt → List Pt → Option (Mat23 × List Bool)) : Prop :=
  ∀ thr iters conf src dst m mask,
    fit thr iters conf src dst = some (m, mask) →
      mask.length = src.length ∧
      m.m01 = -m.m10 ∧ m.m11 = m.m00 ∧
      ∀ (j : ℕ) (q y : Pt), mask[j]? = some true → src[j]? = some q → dst[j]? = some y →
        sqDist (applyAff m q) y ≤ thr ^ 2

/-- Nondegeneracy contract of the modelled estimator: the returned
partial-affine transform `[[a, -b, tx], [b, a, ty]]` is a genuine
rotation-plus-uniform-scaling, so `(a, b) ≠ (0, 0)`, i.e. `a² + b² > 0`. -/
def FitNondeg (fit : ℚ → ℕ → ℚ → List Pt → List Pt → Option (Mat23 × List Bool)) : Prop :=
  ∀ thr iters conf src dst m mask,
    fit thr iters conf src dst = some (m, mask) →
      0 < m.m00 ^ 2 + m.m10 ^ 2

/-- The hypothesis grid in evaluation order: scale is the outer loop over the
linspace values, rotation the inner loop over `range(0, 360, rotation_step)`. -/
def hypothesisGrid (cfg : MatchConfig) : List (ℚ × ℕ) :=
  (linspace cfg.scale_min cfg.scale_max cfg.scale_steps).flatMap
    (fun scale => (rotationAngles cfg.rotation_step).map (fun angle => (scale, angle)))

/-- The hypotheses of the grid, in evaluation order, that produced a model
whose inlier count meets `min_inliers` — the results eligible for selection. -/
def candidateResults (env : CvEnv) (cfg : MatchConfig) (pat bg : List Pt) :
    List MatchResult :=
  ((hypothesisGrid cfg).filterMap (fun h => evalHypothesis env cfg pat bg h.1 h.2)).filter
    (fun r => decide (cfg.min_inliers ≤ r.inliers_count))

/-- Specification-side selection: the first element of the list whose inlier
count is maximal (ties broken by evaluation order). -/
def firstBest (l : List MatchResult) : Option MatchResult :=
  l.find? (fun r => l.all (fun x => decide (x.inliers_count ≤ r.inliers_count)))

/-- Results of a list of hypothesis outcomes that are still eligible to
replace a best-so-far state with inlier count `k`: produced results whose
count meets `m = min_inliers` and strictly exceeds `k` (proof device for the
fold characterisation). -/
def eligOf (m k : ℕ) (l : List (Option MatchResult)) : List MatchResult :=
  (l.filterMap id).filter
    (fun r => decide (m ≤ r.inliers_count) && decide (k < r.inliers_count))

/-- Stable descending insertion: `x` is placed before the first element whose
key is not larger, so earlier-inserted elements with equal keys stay first. -/
def insertDesc (key : α → ℚ) (x : α) : List α → List α
  | [] => [x]
  | y :: ys => if key x < key y then y :: insertDesc key x ys else x :: y :: ys

/-- Stable sort by descending key, modelling Python
`list.sort(key=..., reverse=True)` (which is stable: elements with equal keys
keep their original relative order). -/
def sortByKeyDesc (key : α → ℚ) (l : List α) : List α :=
  l.foldr (insertDesc key) []

/-- A constellation catalog: name and extracted pattern points per entry,
indexed by position (`constellation_names` and `constellation_centroids`). -/
abbrev Catalog : Type := List (String × List Pt)

/-- The matches collected by the loop of `find_constellation_matches`, in
catalog order: entries with fewer than 3 points are skipped (`continue`), the
rest are matched and kept when a match is found, tagged with the catalog
index (`constellation_index`). -/
def collectedMatches (env : CvEnv) (cfg : MatchConfig) (catalog : Catalog)
    (bg : List Pt) : List (ℕ × MatchResult) :=
  catalog.enum.filterMap (fun e =>
    if e.2.2.length < 3 then none
    else (ransac_match env cfg e.2.2 bg).map (fun r => (e.1, r)))

/-- `ConstellationMatcher.find_constellation_matches`: collect the per-entry
matches in catalog order, then `matches.sort(key=inliers_ratio,
reverse=True)`. -/
def find_constellation_matches (env : CvEnv) (cfg : MatchConfig)
    (catalog : Catalog) (bg : List Pt) : List (ℕ × MatchResult) :=
  sortByKeyDesc (fun e => e.2.inliers_ratio) (collectedMatches env cfg catalog bg)

/-- Python substring containment `needle in hay` on strings. -/
def containsSub (hay needle : String) : Bool :=
  hay.toList.tails.any (fun t => needle.toList.isPrefixOf t)

/-- `ConstellationMatcher.get_constellation_by_name`: first catalog entry whose
lower-cased name contains the lower-cased query as a substring, returned with
its index. -/
def get_constellation_by_name (catalog : Catalog) (name : String) :
    Option (ℕ × String × List Pt) :=
  (catalog.enum.find? (fun e => containsSub e.2.1.toLower name.toLower)).map
    (fun e => (e.1, e.2.1, e.2.2))

/-- `ConstellationMatcher.find_specific_constellation`: look the name up; on a
missing entry return `None`; on an entry with fewer than 3 points return
`None`; otherwise delegate to `ransac_match` (whose `None` is passed through),
attaching the catalog index to a successful match. -/
def find_specific_constellation (env : CvEnv) (cfg : MatchConfig)
    (catalog : Catalog) (bg : List Pt) (name : String) : Option (ℕ × MatchResult) :=
  match get_constellation_by_name catalog name with
  | none => none
  | some (idx, _, pts) =>
      if pts.length < 3 then none
      else (ransac_match env cfg pts bg).map (fun r => (idx, r))

/-- The identity 2×3 matrix [[1, 0, 0], [0, 1, 0]]. -/
def identityMat : Mat23 := ⟨1, 0, 0, 0, 1, 0⟩

/-- A concrete admissible instance of the modelled estimator, used by the
concrete scenarios below: it returns the identity transform together with the
mask of correspondences whose reprojection error (under the identity) is
within the threshold.  In every concrete scenario below the source points
coincide with (or are within threshold of) their destinations, so the identity
is exactly the similarity transform the real RANSAC estimator fits there. -/
def identityFit : ℚ → ℕ → ℚ → List Pt → List Pt → Option (Mat23 × List Bool) :=
  fun thr _ _ src dst =>
    if src.length = dst.length then
      some (identityMat, (src.zip dst).map (fun sd => decide (sqDist sd.1 sd.2 ≤ thr ^ 2)))
    else none

/-- Cosine/sine table agreeing with the exact values of
`(cos(radians(a)), sin(radians(a)))` at the multiples of 90 degrees; the
concrete scenarios below only ever evaluate the angle 0. -/
def cosSinEx : ℕ → ℚ × ℚ := fun a =>
  if a % 360 = 0 then (1, 0)
  else if a % 360 = 90 then (0, 1)
  else if a % 360 = 180 then (-1, 0)
  else if a % 360 = 270 then (0, -1)
  else (1, 0)

/-- Concrete external environment for the scenarios below. -/
def envEx : CvEnv := ⟨identityFit, cosSinEx⟩

/-- Configuration for the round-trip scenario: threshold 1, a single tested
scale 2, a single tested rotation 0. -/
def cfgC1 : MatchConfig :=
  { ransac_threshold := 1, min_inliers := 3, max_iters := 1000, confidence := 99/100,
    rotation_step := 360, scale_min := 2, scale_max := 2, scale_steps := 1 }

/-- Pattern of the round-trip scenario. -/
def patC1 : List Pt := [(0, 0), (100, 0), (0, 100)]

/-- Background of the round-trip scenario: the pattern scaled by 2. -/
def bgC1 : List Pt := [(0, 0), (200, 0), (0, 200)]

/-- The match that `ransac_match` returns on the round-trip scenario. -/
def resC1 : MatchResult := ⟨0, 2, 1, 1, 3, identityMat, [0, 1, 2]⟩

/-- Configuration for the ratio-denominator scenario: threshold 5, scale 1,
rotation 0. -/
def cfgC5 : MatchConfig :=
  { ransac_threshold := 5, min_inliers := 3, max_iters := 1000, confidence := 99/100,
    rotation_step := 360, scale_min := 1, scale_max := 1, scale_steps := 1 }

/-- Pattern of the ratio-denominator scenario: 4 points, one far from every
background point (it fails the distance filter). -/
def patC5 : List Pt := [(0, 0), (10, 0), (0, 10), (1000, 1000)]

/-- Background of the ratio-denominator scenario. -/
def bgC5 : List Pt := [(0, 0), (10, 0), (0, 10)]

/-- The match returned on the ratio-denominator scenario: 3 inliers out of 3
surviving correspondences, but the ratio is 3/4 (original pattern size 4). -/
def resC5 : MatchResult := ⟨0, 1, 1, 3/4, 3, identityMat, [0, 1, 2]⟩

/-- Configuration for the duplicate-index scenario. -/
def cfgC10 : MatchConfig :=
  { ransac_threshold := 5, min_inliers := 3, max_iters := 1000, confidence := 99/100,
    rotation_step := 360, scale_min := 1, scale_max := 1, scale_steps := 1 }

/-- Pattern of the duplicate-index scenario: two of its points are nearest to
the same background point. -/
def patC10 : List Pt := [(0, 0), (1, 0), (10, 0)]

/-- Background of the duplicate-index scenario. -/
def bgC10 : List Pt := [(0, 0), (10, 0), (50, 50)]

/-- The match returned on the duplicate-index scenario: background index 0
appears twice in `matched_indices`. -/
def resC10 : MatchResult := ⟨0, 1, 1, 1, 3, identityMat, [0, 0, 1]⟩

/-- Configuration with an inverted scale range (min 2 > max 1): the grid is
`linspace(2, 1, 2) = [2, 1]` and the search runs anyway. -/
def cfgC9 : MatchConfig :=
  { ransac_threshold := 1, min_inliers := 3, max_iters := 1000, confidence := 99/100,
    rotation_step := 360, scale_min := 2, scale_max := 1, scale_steps := 2 }

/-- Pattern of the inverted-scale-range scenario. -/
def patC9 : List Pt := [(0, 0), (10, 0), (0, 10)]

/-- Background of the inverted-scale-range scenario: the pattern scaled by 2,
matched at the first grid scale. -/
def bgC9 : List Pt := [(0, 0), (20, 0), (0, 20)]

/-- The (ordinary, error-free) match returned despite the inverted range. -/
def resC9 : MatchResult := ⟨0, 2, 1, 1, 3, identityMat, [0, 1, 2]⟩

/-- Name of the single entry of the small catalog. -/
def nmOrion : String := "Orion"

/-- Query that matches no catalog entry. -/
def qMiss : String := "zzz"

/-- Query that matches the single entry case-insensitively. -/
def qOrion : String := "orion"

/-- A catalog with a single entry that has only one extracted point. -/
def catC7 : Catalog := [(nmOrion, [(0, 0)])]

end ConstellationTools

namespace StarDetection

/-- Largest component area, `max(stats[1:, cv2.CC_STAT_AREA])` (0 on the empty
list, which the source never takes thanks to the `n > 1` guard). -/
def maxComponentArea (areas : List ℕ) : ℕ :=
  areas.foldr max 0

/-- The automated minimum component size chosen by `process_image` after the
final labelling: `min_size = max(stats[1:, AREA]) / 1000 if n > 1 else 1`
(true division, no clamping in the source). -/
def automated_min_size (areas : List ℕ) : ℚ :=
  if areas = [] then 1 else (maxComponentArea areas : ℚ) / 1000

/-- The component filter of `process_image` in automated mode: keep exactly the
components (position, area) whose area is at least the automated minimum size
(`stats[i, cv2.CC_STAT_AREA] >= min_size`). -/
def filtered_components (areas : List ℕ) : List (ℕ × ℕ) :=
  areas.enum.filter (fun ia => decide (automated_min_size areas ≤ (ia.2 : ℚ)))

/-- Specification-side filter, following the claim verbatim: cutoff
`max(1, maxComponentArea / 1000)`, a component at the cutoff retained, one
strictly below dropped. -/
def claimed_filtered_components (areas : List ℕ) : List (ℕ × ℕ) :=
  areas.enum.filter
    (fun ia => decide (max 1 ((maxComponentArea areas : ℚ) / 1000) ≤ (ia.2 : ℚ)))

/-- Concrete area list for the witness: the cutoff is 2000/1000 = 2; the
area-2 component sits exactly at the cutoff, the area-1 component below it. -/
def areasEx : List ℕ := [2000, 2, 1]

end StarDetection

namespace ConstellationTools

theorem foldl_flatMap {α β γ : Type} (f : β → α → β) (g : γ → List α)
    (l : List γ) (b : β) :
    (l.flatMap g).foldl f b = l.foldl (fun acc c => (g c).foldl f acc) b := by
  induction l generalizing b with
  | nil => rfl
  | cons c t ih => simp [List.flatMap_cons, List.foldl_append, ih]

theorem ransac_match_eq_grid (env : CvEnv) (cfg : MatchConfig) (pat bg : List Pt) :
    ransac_match env cfg pat bg =
      if pat.length < 3 ∨ bg.length < 3 then none
      else ((hypothesisGrid cfg).foldl
        (fun st h => ransacStep cfg st (evalHypothesis env cfg pat bg h.1 h.2))
        (none, 0)).1 := by
  unfold ransac_match hypothesisGrid
  split
  · rfl
  · rw [foldl_flatMap]
    simp only [List.foldl_map]

theorem foldl_ransacStep_some (cfg : MatchConfig) (F : ℚ × ℕ → Option MatchResult)
    (l : List (ℚ × ℕ)) :
    ∀ (st : Option MatchResult × ℕ) (r : MatchResult),
      (l.foldl (fun s h => ransacStep cfg s (F h)) st).1 = some r →
      st.1 = some r ∨ ∃ h ∈ l, F h = some r ∧ cfg.min_inliers ≤ r.inliers_count := by
  induction l with
  | nil => intro st r h; exact Or.inl h
  | cons a t ih =>
    intro st r h
    rw [List.foldl_cons] at h
    cases hFa : F a with
    | none =>
      rw [hFa] at h
      simp only [ransacStep] at h
      rcases ih st r h with h1 | ⟨hh, hmem, he, hc⟩
      · exact Or.inl h1
      · exact Or.inr ⟨hh, List.mem_cons_of_mem a hmem, he, hc⟩
    | some x =>
      rw [hFa] at h
      simp only [ransacStep] at h
      by_cases hcond : st.2 < x.inliers_count ∧ cfg.min_inliers ≤ x.inliers_count
      · rw [if_pos hcond] at h
        rcases ih _ r h with h1 | ⟨hh, hmem, he, hc⟩
        · have hx : x = r := by simpa using h1
          exact Or.inr ⟨a, List.mem_cons_self a t, by rw [hFa, hx], hx ▸ hcond.2⟩
        · exact Or.inr ⟨hh, List.mem_cons_of_mem a hmem, he, hc⟩
      · rw [if_neg hcond] at h
        rcases ih st r h with h1 | ⟨hh, hmem, he, hc⟩
        · exact Or.inl h1
        · exact Or.inr ⟨hh, List.mem_cons_of_mem a hmem, he, hc⟩

theorem ransac_match_provenance {env : CvEnv} {cfg : MatchConfig} {pat bg : List Pt}
    {r : MatchResult} (h : ransac_match env cfg pat bg = some r) :
    3 ≤ pat.length ∧ 3 ≤ bg.length ∧
    ∃ scale angle, scale ∈ linspace cfg.scale_min cfg.scale_max cfg.scale_steps ∧
      angle ∈ rotationAngles cfg.rotation_step ∧
      evalHypothesis env cfg pat bg scale angle = some r ∧
      cfg.min_inliers ≤ r.inliers_count := by
  rw [ransac_match_eq_grid] at h
  split at h
  · exact absurd h (by simp)
  · rename_i hguard
    push_neg at hguard
    refine ⟨by omega, by omega, ?_⟩
    rcases foldl_ransacStep_some cfg _ (hypothesisGrid cfg) (none, 0) r h with h1 | ⟨hp, hmem, he, hc⟩
    · exact absurd h1 (by simp)
    · rcases List.mem_flatMap.mp hmem with ⟨scale, hs, hmem2⟩
      rcases List.mem_map.mp hmem2 with ⟨angle, ha, hpair⟩
      refine ⟨scale, angle, hs, ha, ?_, hc⟩
      rw [← hpair] at he
      exact he

theorem evalHypothesis_eq_some {env : CvEnv} {cfg : MatchConfig} {pat bg : List Pt}
    {scale : ℚ} {angle : ℕ} {r : MatchResult}
    (h : evalHypothesis env cfg pat bg scale angle = some r) :
    ∃ m mask,
      env.estimateAffinePartial2D cfg.ransac_threshold cfg.max_iters cfg.confidence
        ((validCorrespondences env cfg pat bg scale angle).map (fun t => t.1))
        (((validCorrespondences env cfg pat bg scale angle).map (fun t => t.2.1)).map (getPt bg))
        = some (m, mask) ∧
      cfg.min_inliers ≤ (validCorrespondences env cfg pat bg scale angle).length ∧
      3 ≤ (validCorrespondences env cfg pat bg scale angle).length ∧
      r = { rotation_angle := angle, tested_scale := scale,
            final_scale_sq := m.m00 ^ 2 + m.m10 ^ 2,
            inliers_ratio := (mask.count true : ℚ) / (pat.length : ℚ),
            inliers_count := mask.count true,
            transformation_matrix := m,
            matched_indices :=
              maskFilter mask ((validCorrespondences env cfg pat bg scale angle).map (fun t => t.2.1)) } := by
  simp only [evalHypothesis] at h
  split at h
  · exact absurd h (by simp)
  · split at h
    · exact absurd h (by simp)
    · rename_i h1 h2
      split at h
      · exact absurd h (by simp)
      · rename_i m mask heq
        refine ⟨m, mask, heq, by omega, by omega, ?_⟩
        have := Option.some.inj h
        exact this.symm

theorem mem_maskFilter {mask : List Bool} {l : List ℕ} {x : ℕ}
    (h : x ∈ maskFilter mask l) :
    ∃ j : ℕ, mask[j]? = some true ∧ l[j]? = some x := by
  induction mask generalizing l with
  | nil => simp [maskFilter] at h
  | cons b bs ih =>
    cases l with
    | nil => simp [maskFilter] at h
    | cons y ys =>
      by_cases hb : b
      · subst hb
        rw [maskFilter, if_pos rfl] at h
        rcases List.mem_cons.mp h with hxy | hmem
        · exact ⟨0, by simp, by simp [hxy]⟩
        · rcases ih hmem with ⟨j, hj1, hj2⟩
          exact ⟨j + 1, by simpa using hj1, by simpa using hj2⟩
      · have hb2 : b = false := by simpa using hb
        subst hb2
        rw [maskFilter, if_neg (by simp)] at h
        rcases ih h with ⟨j, hj1, hj2⟩
        exact ⟨j + 1, by simpa using hj1, by simpa using hj2⟩

theorem nnAux_fst_lt (p : Pt) (l : List Pt) :
    ∀ (i : ℕ) (best : ℕ × ℚ) (n : ℕ), best.1 < n → i + l.length ≤ n →
      (nnAux p l i best).1 < n := by
  induction l with
  | nil => intro i best n hb _; simpa [nnAux] using hb
  | cons q rest ih =>
    intro i best n hb hl
    rw [nnAux]
    apply ih
    · by_cases hd : sqDist p q < best.2
      · rw [if_pos hd]
        simp only []
        simp at hl
        omega
      · rw [if_neg hd]; exact hb
    · simp at hl
      omega

theorem nearestNeighbor_fst_lt (p : Pt) (bg : List Pt) (hbg : bg ≠ []) :
    (nearestNeighbor p bg).1 < bg.length := by
  cases bg with
  | nil => exact absurd rfl hbg
  | cons q rest =>
    rw [nearestNeighbor]
    apply nnAux_fst_lt
    · simp
    · simp [Nat.add_comm]

theorem rotationAngles_lt_360 {step a : ℕ} (h : a ∈ rotationAngles step) :
    a < 360 := by
  unfold rotationAngles at h
  split at h
  · simp at h
  · rename_i hs
    rcases List.mem_map.mp h with ⟨k, hk, rfl⟩
    have hk2 : k + 1 ≤ (359 + step) / step := List.mem_range.mp hk
    have h1 : (k + 1) * step ≤ ((359 + step) / step) * step :=
      Nat.mul_le_mul_right step hk2
    have h2 : ((359 + step) / step) * step ≤ 359 + step := Nat.div_mul_le_self _ _
    have h3 : (k + 1) * step = k * step + step := Nat.succ_mul k step
    omega

theorem getElem?_zip_of {α β : Type} {l1 : List α} {l2 : List β} :
    ∀ {j : ℕ} {a : α} {b : β}, l1[j]? = some a → l2[j]? = some b →
      (l1.zip l2)[j]? = some (a, b) := by
  induction l1 generalizing l2 with
  | nil => intro j a b h1 _; simp at h1
  | cons x xs ih =>
    intro j a b h1 h2
    cases l2 with
    | nil => simp at h2
    | cons y ys =>
      cases j with
      | zero =>
        simp at h1 h2
        simp [List.zip_cons_cons, h1, h2]
      | succ j =>
        simp only [List.getElem?_cons_succ] at h1 h2
        simpa [List.zip_cons_cons] using ih h1 h2

theorem applyAff_identityMat (p : Pt) : applyAff identityMat p = p := by
  simp [applyAff, identityMat]

theorem identityFit_sound : FitSound identityFit := by
  intro thr iters conf src dst m mask h
  unfold identityFit at h
  split at h
  · rename_i hlen
    have h2 := Option.some.inj h
    have hm : identityMat = m := congrArg Prod.fst h2
    have hk : (src.zip dst).map (fun sd => decide (sqDist sd.1 sd.2 ≤ thr ^ 2)) = mask :=
      congrArg Prod.snd h2
    subst hm
    refine ⟨?_, by simp [identityMat], by simp [identityMat], ?_⟩
    · rw [← hk]
      simp [List.length_zip, hlen]
    · intro j q y hmask hsrc hdst
      rw [← hk, List.getElem?_map, getElem?_zip_of hsrc hdst] at hmask
      have : decide (sqDist q y ≤ thr ^ 2) = true := by simpa using hmask
      rw [applyAff_identityMat]
      exact of_decide_eq_true this
  · exact absurd h (by simp)

theorem identityFit_nondeg : FitNondeg identityFit := by
  intro thr iters conf src dst m mask h
  unfold identityFit at h
  split at h
  · have h2 := Option.some.inj h
    have hm : identityMat = m := congrArg Prod.fst h2
    rw [← hm]
    norm_num [identityMat]
  · exact absurd h (by simp)

theorem mem_of_getElem?_some {α : Type} {l : List α} {j : ℕ} {a : α}
    (h : l[j]? = some a) : a ∈ l := by
  rcases List.getElem?_eq_some.mp h with ⟨hlt, heq⟩
  exact heq ▸ List.getElem_mem hlt

/-- Claim C1 — counterexample to the claim as stated.  On a concrete run the
returned match has `tested_scale = 2`; applying only the rotation and the
2×3 matrix (as `apply_transformation` does, with no `tested_scale` factor) to
the second inlier pattern point `(100, 0)` gives a point at squared distance
10000 from the matched background point `(200, 0)`, far beyond the squared
threshold 1: the claimed unscaled round-trip fails. -/
theorem ransac_match_roundtrip_unscaled_cx :
    ransac_match envEx cfgC1 patC1 bgC1 = some resC1 ∧
    resC1.matched_indices[1]? = some 1 ∧
    patC1[1]? = some ((100 : ℚ), (0 : ℚ)) ∧
    cfgC1.ransac_threshold ^ 2 <
      sqDist (apply_transformation resC1.transformation_matrix
        (envEx.cosSin resC1.rotation_angle).1 (envEx.cosSin resC1.rotation_angle).2
        ((100 : ℚ), (0 : ℚ))) (getPt bgC1 1) := by
  with_unfolding_all decide

theorem maskFilter_eq_maskSelect :
    ∀ (mask : List Bool) (l : List ℕ), maskFilter mask l = maskSelect mask l := by
  intro mask
  induction mask with
  | nil => intro l; cases l <;> rfl
  | cons b bs ih =>
    intro l
    cases l with
    | nil => rfl
    | cons x xs => simp [maskFilter, maskSelect, ih]

theorem mem_maskSelect {α : Type} {mask : List Bool} {l : List α} {x : α}
    (h : x ∈ maskSelect mask l) :
    ∃ j : ℕ, mask[j]? = some true ∧ l[j]? = some x := by
  induction mask generalizing l with
  | nil => simp [maskSelect] at h
  | cons b bs ih =>
    cases l with
    | nil => simp [maskSelect] at h
    | cons y ys =>
      by_cases hb : b
      · subst hb
        rw [maskSelect, if_pos rfl] at h
        rcases List.mem_cons.mp h with hxy | hmem
        · exact ⟨0, by simp, by simp [hxy]⟩
        · rcases ih hmem with ⟨j, hj1, hj2⟩
          exact ⟨j + 1, by simpa using hj1, by simpa using hj2⟩
      · have hb2 : b = false := by simpa using hb
        subst hb2
        rw [maskSelect, if_neg (by simp)] at h
        rcases ih h with ⟨j, hj1, hj2⟩
        exact ⟨j + 1, by simpa using hj1, by simpa using hj2⟩

theorem length_maskSelect_eq {α β : Type} :
    ∀ (mask : List Bool) (A : List α) (B : List β), A.length = B.length →
      (maskSelect mask A).length = (maskSelect mask B).length := by
  intro mask
  induction mask with
  | nil => intro A B _; cases A <;> cases B <;> rfl
  | cons b bs ih =>
    intro A B h
    cases A with
    | nil =>
      cases B with
      | nil => rfl
      | cons y ys => simp at h
    | cons x xs =>
      cases B with
      | nil => simp at h
      | cons y ys =>
        have h2 : xs.length = ys.length := by simpa using h
        cases b <;> simp [maskSelect, ih xs ys h2]

theorem maskSelect_zip {α β : Type} :
    ∀ (mask : List Bool) (A : List α) (B : List β), A.length = B.length →
      maskSelect mask (A.zip B) = (maskSelect mask A).zip (maskSelect mask B) := by
  intro mask
  induction mask with
  | nil => intro A B _; cases A <;> cases B <;> rfl
  | cons b bs ih =>
    intro A B h
    cases A with
    | nil =>
      cases B with
      | nil => rfl
      | cons y ys => simp at h
    | cons x xs =>
      cases B with
      | nil => simp at h
      | cons y ys =>
        have h2 : xs.length = ys.length := by simpa using h
        cases b <;> simp [List.zip_cons_cons, maskSelect] <;> exact ih xs ys h2

theorem getElem?_zip_inv {α β : Type} {A : List α} {B : List β} :
    ∀ {j : ℕ} {ab : α × β}, (A.zip B)[j]? = some ab →
      A[j]? = some ab.1 ∧ B[j]? = some ab.2 := by
  induction A generalizing B with
  | nil => intro j ab h; simp at h
  | cons x xs ih =>
    intro j ab h
    cases B with
    | nil => simp at h
    | cons y ys =>
      cases j with
      | zero =>
        rw [List.zip_cons_cons] at h
        have hxy : (x, y) = ab := by simpa using h
        rw [← hxy]
        constructor <;> simp
      | succ j =>
        rw [List.zip_cons_cons] at h
        simp only [List.getElem?_cons_succ] at h ⊢
        exact ih h

theorem validCorrespondences_eq_map (env : CvEnv) (cfg : MatchConfig)
    (pat bg : List Pt) (scale : ℚ) (angle : ℕ) :
    validCorrespondences env cfg pat bg scale angle
      = (surviving_pattern_points env cfg pat bg scale angle).map
          (fun p =>
            (rotPt (env.cosSin angle).1 (env.cosSin angle).2 (scalePt scale p),
             nearestNeighbor (rotPt (env.cosSin angle).1 (env.cosSin angle).2 (scalePt scale p)) bg)) := by
  unfold validCorrespondences transformedPattern surviving_pattern_points
  rw [List.map_map, List.filter_map]
  rfl

/-- Claim C1 — amended round-trip.  For every returned match,
`inlier_pattern_points` (the original pattern points whose correspondences
survived the distance filter and the inlier mask, in pattern order) is
positionally aligned with `matched_indices`: the lists have equal length,
every entry is a point of the input pattern, and for every position `i`,
applying the returned `tested_scale`, then the rotation of the returned
`rotation_angle`, then the 2×3 `transformation_matrix` (the latter two as
`apply_transformation` does) to the i-th inlier pattern point yields a point
within `ransac_threshold` (squared comparison) of the background point at
index `matched_indices[i]` — the estimator reprojection guarantee transported
through the search. -/
theorem ransac_match_roundtrip (env : CvEnv) (cfg : MatchConfig)
    (pat bg : List Pt) (r : MatchResult)
    (hfs : FitSound env.estimateAffinePartial2D)
    (h : ransac_match env cfg pat bg = some r) :
    (inlier_pattern_points env cfg pat bg r.tested_scale r.rotation_angle).length
      = r.matched_indices.length ∧
    (∀ p ∈ inlier_pattern_points env cfg pat bg r.tested_scale r.rotation_angle, p ∈ pat) ∧
    ∀ (i : ℕ) (p : Pt) (x : ℕ),
      (inlier_pattern_points env cfg pat bg r.tested_scale r.rotation_angle)[i]? = some p →
      r.matched_indices[i]? = some x →
      sqDist (apply_transformation r.transformation_matrix
          (env.cosSin r.rotation_angle).1 (env.cosSin r.rotation_angle).2
          (scalePt r.tested_scale p))
        (getPt bg x) ≤ cfg.ransac_threshold ^ 2 := by
  obtain ⟨hp, hb, scale, angle, hs, ha, he, hc⟩ := ransac_match_provenance h
  obtain ⟨m, mask, hfit, h1, h2, hr⟩ := evalHypothesis_eq_some he
  have hts : r.tested_scale = scale := by rw [hr]
  have hra : r.rotation_angle = angle := by rw [hr]
  have htm : r.transformation_matrix = m := by rw [hr]
  have hmi : r.matched_indices
      = maskFilter mask ((validCorrespondences env cfg pat bg scale angle).map (fun t => t.2.1)) := by
    rw [hr]
  have hipp : inlier_pattern_points env cfg pat bg scale angle
      = maskSelect mask (surviving_pattern_points env cfg pat bg scale angle) := by
    unfold inlier_pattern_points
    rw [hfit]
  have hval := validCorrespondences_eq_map env cfg pat bg scale angle
  have hSD : (surviving_pattern_points env cfg pat bg scale angle).length
      = ((validCorrespondences env cfg pat bg scale angle).map (fun t => t.2.1)).length := by
    rw [List.length_map, hval, List.length_map]
  rw [hts, hra, htm, hmi, hipp]
  refine ⟨?_, ?_, ?_⟩
  · rw [maskFilter_eq_maskSelect]
    exact length_maskSelect_eq mask _ _ hSD
  · intro p hpmem
    obtain ⟨j, hj1, hj2⟩ := mem_maskSelect hpmem
    have hmemS := mem_of_getElem?_some hj2
    unfold surviving_pattern_points at hmemS
    exact List.mem_of_mem_filter hmemS
  · intro i p x hpi hxi
    rw [maskFilter_eq_maskSelect] at hxi
    have hzip := getElem?_zip_of hpi hxi
    rw [← maskSelect_zip mask _ _ hSD] at hzip
    have hmem := mem_of_getElem?_some hzip
    obtain ⟨j, hj1, hj2⟩ := mem_maskSelect hmem
    obtain ⟨hjS, hjD⟩ := getElem?_zip_inv hj2
    have hvj : (validCorrespondences env cfg pat bg scale angle)[j]?
        = some (rotPt (env.cosSin angle).1 (env.cosSin angle).2 (scalePt scale p),
            nearestNeighbor (rotPt (env.cosSin angle).1 (env.cosSin angle).2 (scalePt scale p)) bg) := by
      rw [hval, List.getElem?_map, hjS]
      rfl
    have hsrc : ((validCorrespondences env cfg pat bg scale angle).map (fun t => t.1))[j]?
        = some (rotPt (env.cosSin angle).1 (env.cosSin angle).2 (scalePt scale p)) := by
      rw [List.getElem?_map, hvj]
      rfl
    have hdst : (((validCorrespondences env cfg pat bg scale angle).map (fun t => t.2.1)).map (getPt bg))[j]?
        = some (getPt bg x) := by
      rw [List.getElem?_map, hjD]
      rfl
    have hrep := (hfs _ _ _ _ _ _ _ hfit).2.2.2 j _ _ hj1 hsrc hdst
    unfold apply_transformation
    exact hrep

/-- Claim C1 — witness for the amended round-trip theorem at the concrete
round-trip scenario (the single inlier pattern-point list is the whole
pattern, aligned position by position with `matched_indices = [0, 1, 2]`). -/
theorem ransac_match_roundtrip_witness :
    FitSound envEx.estimateAffinePartial2D ∧
    ransac_match envEx cfgC1 patC1 bgC1 = some resC1 ∧
    ((inlier_pattern_points envEx cfgC1 patC1 bgC1 resC1.tested_scale resC1.rotation_angle).length
        = resC1.matched_indices.length ∧
     (∀ p ∈ inlier_pattern_points envEx cfgC1 patC1 bgC1 resC1.tested_scale resC1.rotation_angle,
        p ∈ patC1) ∧
     ∀ (i : ℕ) (p : Pt) (x : ℕ),
       (inlier_pattern_points envEx cfgC1 patC1 bgC1 resC1.tested_scale resC1.rotation_angle)[i]?
          = some p →
       resC1.matched_indices[i]? = some x →
       sqDist (apply_transformation resC1.transformation_matrix
           (envEx.cosSin resC1.rotation_angle).1 (envEx.cosSin resC1.rotation_angle).2
           (scalePt resC1.tested_scale p))
         (getPt bgC1 x) ≤ cfgC1.ransac_threshold ^ 2) :=
  ⟨identityFit_sound, by with_unfolding_all decide,
   ransac_match_roundtrip envEx cfgC1 patC1 bgC1 resC1 identityFit_sound
     (by with_unfolding_all decide)⟩

/-- Claim C2 — result invariants.  Every match returned by `ransac_match`
satisfies: `inliers_count` at most the original pattern size, `inliers_ratio`
in [0, 1], a positive `final_scale` (stated both on the stored radicand
`final_scale_sq = a² + b²` and on `final_scale = sqrt(a² + b²)` itself), and
`rotation_angle` in [0, 360) (the angle is a natural number, so only the upper
bound is stated). -/
theorem ransac_match_result_invariants (env : CvEnv) (cfg : MatchConfig)
    (pat bg : List Pt) (r : MatchResult)
    (hfs : FitSound env.estimateAffinePartial2D)
    (hfn : FitNondeg env.estimateAffinePartial2D)
    (h : ransac_match env cfg pat bg = some r) :
    r.inliers_count ≤ pat.length ∧
    0 ≤ r.inliers_ratio ∧ r.inliers_ratio ≤ 1 ∧
    0 < r.final_scale_sq ∧ 0 < Real.sqrt ((r.final_scale_sq : ℚ) : ℝ) ∧
    r.rotation_angle < 360 := by
  obtain ⟨hp, hb, scale, angle, hs, ha, he, hc⟩ := ransac_match_provenance h
  obtain ⟨m, mask, hfit, h1, h2, hr⟩ := evalHypothesis_eq_some he
  have hmlen : mask.length = ((validCorrespondences env cfg pat bg scale angle).map (fun t => t.1)).length :=
    (hfs _ _ _ _ _ _ _ hfit).1
  have hvlen : (validCorrespondences env cfg pat bg scale angle).length ≤ pat.length := by
    unfold validCorrespondences
    calc ((((transformedPattern env scale angle pat).map (fun q => (q, nearestNeighbor q bg))).filter
            (fun t => decide (t.2.2 < cfg.ransac_threshold ^ 2)))).length
        ≤ ((transformedPattern env scale angle pat).map (fun q => (q, nearestNeighbor q bg))).length :=
          List.length_filter_le _ _
      _ = pat.length := by rw [List.length_map]; unfold transformedPattern; rw [List.length_map]
  have hcnt : mask.count true ≤ pat.length := by
    have := List.count_le_length true mask
    rw [hmlen, List.length_map] at this
    omega
  have hplen : 0 < pat.length := by omega
  subst hr
  refine ⟨hcnt, ?_, ?_, ?_, ?_, rotationAngles_lt_360 ha⟩
  · exact div_nonneg (Nat.cast_nonneg _) (Nat.cast_nonneg _)
  · rw [div_le_one (by exact_mod_cast hplen)]
    exact_mod_cast hcnt
  · exact hfn _ _ _ _ _ _ _ hfit
  · rw [Real.sqrt_pos]
    exact_mod_cast hfn _ _ _ _ _ _ _ hfit

/-- Claim C2 — witness at the concrete round-trip scenario. -/
theorem ransac_match_result_invariants_witness :
    FitSound envEx.estimateAffinePartial2D ∧
    FitNondeg envEx.estimateAffinePartial2D ∧
    ransac_match envEx cfgC1 patC1 bgC1 = some resC1 ∧
    (resC1.inliers_count ≤ patC1.length ∧
     0 ≤ resC1.inliers_ratio ∧ resC1.inliers_ratio ≤ 1 ∧
     0 < resC1.final_scale_sq ∧ 0 < Real.sqrt ((resC1.final_scale_sq : ℚ) : ℝ) ∧
     resC1.rotation_angle < 360) :=
  ⟨identityFit_sound, identityFit_nondeg, by with_unfolding_all decide,
   ransac_match_result_invariants envEx cfgC1 patC1 bgC1 resC1 identityFit_sound
     identityFit_nondeg (by with_unfolding_all decide)⟩

/-- Claim C3 — small-input precondition.  With fewer than 3 pattern points or
fewer than 3 background points, `ransac_match` returns `None` immediately and
no hypothesis reaches the robust-fit call. -/
theorem ransac_match_small_input (env : CvEnv) (cfg : MatchConfig)
    (pat bg : List Pt) (h : pat.length < 3 ∨ bg.length < 3) :
    ransac_match env cfg pat bg = none ∧ fit_attempts env cfg pat bg = 0 := by
  constructor
  · unfold ransac_match; rw [if_pos h]
  · unfold fit_attempts; rw [if_pos h]

/-- Claim C3 — witness: a 2-point pattern. -/
theorem ransac_match_small_input_witness :
    ([((0 : ℚ), (0 : ℚ)), (1, 1)].length < 3 ∨ bgC1.length < 3) ∧
    ransac_match envEx cfgC1 [((0 : ℚ), (0 : ℚ)), (1, 1)] bgC1 = none ∧
    fit_attempts envEx cfgC1 [((0 : ℚ), (0 : ℚ)), (1, 1)] bgC1 = 0 :=
  ⟨by decide,
   (ransac_match_small_input envEx cfgC1 [((0 : ℚ), (0 : ℚ)), (1, 1)] bgC1 (by decide)).1,
   (ransac_match_small_input envEx cfgC1 [((0 : ℚ), (0 : ℚ)), (1, 1)] bgC1 (by decide)).2⟩

/-- Claim C5 — ratio denominator.  The `inliers_ratio` of every returned match
is the inlier count divided by the length of the original input pattern (the
pre-filter pattern size). -/
theorem ransac_match_ratio_denominator (env : CvEnv) (cfg : MatchConfig)
    (pat bg : List Pt) (r : MatchResult)
    (h : ransac_match env cfg pat bg = some r) :
    r.inliers_ratio = (r.inliers_count : ℚ) / (pat.length : ℚ) := by
  obtain ⟨hp, hb, scale, angle, hs, ha, he, hc⟩ := ransac_match_provenance h
  obtain ⟨m, mask, hfit, h1, h2, hr⟩ := evalHypothesis_eq_some he
  subst hr
  rfl

/-- Claim C5 — witness at the ratio-denominator scenario: only 3
correspondences survive the distance filter, yet the ratio is 3/4 because the
original pattern has 4 points. -/
theorem ransac_match_ratio_denominator_witness :
    ransac_match envEx cfgC5 patC5 bgC5 = some resC5 ∧
    resC5.inliers_ratio = (resC5.inliers_count : ℚ) / (patC5.length : ℚ) ∧
    resC5.inliers_ratio = 3 / 4 :=
  ⟨by with_unfolding_all decide,
   ransac_match_ratio_denominator envEx cfgC5 patC5 bgC5 resC5
     (by with_unfolding_all decide),
   by with_unfolding_all decide⟩

/-- Claim C10 — matched indices are valid background indices but need not be
distinct.  First conjunct: every element of `matched_indices` of every
returned match indexes into the background list.  Second conjunct: on a
concrete run two pattern points are matched to the same background point, so
`matched_indices = [0, 0, 1]` has a repeat. -/
theorem ransac_match_matched_indices :
    (∀ (env : CvEnv) (cfg : MatchConfig) (pat bg : List Pt) (r : MatchResult),
        ransac_match env cfg pat bg = some r →
        ∀ x ∈ r.matched_indices, x < bg.length) ∧
    (ransac_match envEx cfgC10 patC10 bgC10 = some resC10 ∧
     ¬ resC10.matched_indices.Nodup) := by
  constructor
  · intro env cfg pat bg r h x hx
    obtain ⟨hp, hb, scale, angle, hs, ha, he, hc⟩ := ransac_match_provenance h
    obtain ⟨m, mask, hfit, h1, h2, hr⟩ := evalHypothesis_eq_some he
    subst hr
    obtain ⟨j, hj1, hj2⟩ := mem_maskFilter hx
    rw [List.getElem?_map] at hj2
    cases hvj : (validCorrespondences env cfg pat bg scale angle)[j]? with
    | none => rw [hvj] at hj2; simp at hj2
    | some t =>
      rw [hvj] at hj2
      have hj2x : t.2.1 = x := by simpa using hj2
      have htmem : t ∈ validCorrespondences env cfg pat bg scale angle :=
        mem_of_getElem?_some hvj
      unfold validCorrespondences at htmem
      have ht2 := (List.mem_filter.mp htmem).1
      rcases List.mem_map.mp ht2 with ⟨q, hq, hqt⟩
      have hbgne : bg ≠ [] := by
        intro hnil
        rw [hnil] at hb
        simp at hb
      have := nearestNeighbor_fst_lt q bg hbgne
      have ht21 : t.2.1 = (nearestNeighbor q bg).1 := by rw [← hqt]
      omega
  · exact ⟨by with_unfolding_all decide, by decide⟩

/-- Claim C10 — witness applying the in-range part at the duplicate-index
scenario. -/
theorem ransac_match_matched_indices_witness :
    ransac_match envEx cfgC10 patC10 bgC10 = some resC10 ∧
    ∀ x ∈ resC10.matched_indices, x < bgC10.length :=
  ⟨by with_unfolding_all decide,
   fun x hx => ransac_match_matched_indices.1 envEx cfgC10 patC10 bgC10 resC10
     (by with_unfolding_all decide) x hx⟩

theorem find?_eq_find?_filter {α : Type} {p q : α → Bool} :
    ∀ {l : List α}, (∀ a ∈ l, p a = true → q a = true) →
      l.find? p = (l.filter q).find? p := by
  intro l
  induction l with
  | nil => intro _; rfl
  | cons a t ih =>
    intro h
    by_cases hpa : p a = true
    · have hqa := h a (List.mem_cons_self a t) hpa
      simp [List.find?_cons, List.filter_cons, hpa, hqa]
    · have hpa2 : p a = false := by simpa using hpa
      have ht := ih (fun x hx => h x (List.mem_cons_of_mem a hx))
      cases hqa : q a
      · simp [List.find?_cons, List.filter_cons, hpa2, hqa, ht]
      · simp [List.find?_cons, List.filter_cons, hpa2, hqa, ht]

theorem find?_congr_mem {α : Type} {p q : α → Bool} :
    ∀ {l : List α}, (∀ a ∈ l, p a = q a) → l.find? p = l.find? q := by
  intro l
  induction l with
  | nil => intro _; rfl
  | cons a t ih =>
    intro h
    have ha := h a (List.mem_cons_self a t)
    have ht := ih (fun x hx => h x (List.mem_cons_of_mem a hx))
    cases hpa : p a
    · simp [List.find?_cons, hpa, ← ha, ht]
    · simp [List.find?_cons, hpa, ← ha]

theorem exists_max_key {α : Type} (f : α → ℕ) :
    ∀ (l : List α), l ≠ [] → ∃ r ∈ l, ∀ x ∈ l, f x ≤ f r := by
  intro l
  induction l with
  | nil => intro h; exact absurd rfl h
  | cons a t ih =>
    intro _
    cases t with
    | nil => exact ⟨a, by simp, by simp⟩
    | cons b u =>
      obtain ⟨r, hr, hmax⟩ := ih (by simp)
      by_cases har : f a ≤ f r
      · refine ⟨r, List.mem_cons_of_mem a hr, ?_⟩
        intro x hx
        rcases List.mem_cons.mp hx with rfl | hx2
        · exact har
        · exact hmax x hx2
      · refine ⟨a, List.mem_cons_self a _, ?_⟩
        intro x hx
        rcases List.mem_cons.mp hx with rfl | hx2
        · exact le_refl _
        · exact le_trans (hmax x hx2) (le_of_not_le har)

theorem firstBest_eq_none {l : List MatchResult} (h : firstBest l = none) :
    l = [] := by
  by_contra hne
  obtain ⟨r, hr, hmax⟩ := exists_max_key (fun r => r.inliers_count) l hne
  have hx : ∃ x ∈ l, (l.all (fun y => decide (y.inliers_count ≤ x.inliers_count))) = true := by
    refine ⟨r, hr, ?_⟩
    rw [List.all_eq_true]
    intro y hy
    exact decide_eq_true (hmax y hy)
  have := List.find?_isSome.mpr hx
  unfold firstBest at h
  rw [h] at this
  simp at this

theorem mem_eligOf {m k : ℕ} {l : List (Option MatchResult)} {r : MatchResult} :
    r ∈ eligOf m k l ↔
      r ∈ l.filterMap id ∧ m ≤ r.inliers_count ∧ k < r.inliers_count := by
  simp [eligOf, List.mem_filter, and_assoc]

theorem eligOf_cons_none (m k : ℕ) (t : List (Option MatchResult)) :
    eligOf m k (none :: t) = eligOf m k t := by
  simp [eligOf]

theorem eligOf_cons_some_pos {m k : ℕ} {x : MatchResult}
    (t : List (Option MatchResult)) (h1 : m ≤ x.inliers_count)
    (h2 : k < x.inliers_count) :
    eligOf m k (some x :: t) = x :: eligOf m k t := by
  simp [eligOf, List.filter_cons, h1, h2]

theorem eligOf_cons_some_neg {m k : ℕ} {x : MatchResult}
    (t : List (Option MatchResult))
    (h : ¬(k < x.inliers_count ∧ m ≤ x.inliers_count)) :
    eligOf m k (some x :: t) = eligOf m k t := by
  by_cases h1 : m ≤ x.inliers_count
  · have h2 : ¬ k < x.inliers_count := fun h2 => h ⟨h2, h1⟩
    simp [eligOf, List.filter_cons, h1, h2]
  · simp [eligOf, List.filter_cons, h1]

theorem foldl_ransacStep_eq_firstBest (cfg : MatchConfig) :
    ∀ (l : List (Option MatchResult)) (o : Option MatchResult) (k : ℕ),
      (l.foldl (ransacStep cfg) (o, k)).1 =
        (firstBest (eligOf cfg.min_inliers k l)).or o := by
  intro l
  induction l with
  | nil =>
    intro o k
    simp [eligOf, firstBest, List.find?]
  | cons r? t ih =>
    intro o k
    cases r? with
    | none =>
      rw [List.foldl_cons]
      simp only [ransacStep]
      rw [ih, eligOf_cons_none]
    | some x =>
      rw [List.foldl_cons]
      simp only [ransacStep]
      by_cases hcond : k < x.inliers_count ∧ cfg.min_inliers ≤ x.inliers_count
      · rw [if_pos hcond, ih]
        rw [eligOf_cons_some_pos t hcond.2 hcond.1]
        cases hE : firstBest (eligOf cfg.min_inliers x.inliers_count t) with
        | none =>
          have hnil := firstBest_eq_none hE
          have hhead : firstBest (x :: eligOf cfg.min_inliers k t) = some x := by
            unfold firstBest
            rw [List.find?_cons]
            have hall : ((x :: eligOf cfg.min_inliers k t).all
                (fun y => decide (y.inliers_count ≤ x.inliers_count))) = true := by
              rw [List.all_eq_true]
              intro y hy
              rcases List.mem_cons.mp hy with rfl | hy2
              · exact decide_eq_true (le_refl _)
              · refine decide_eq_true ?_
                by_contra hlt
                have hy3 := mem_eligOf.mp hy2
                have : y ∈ eligOf cfg.min_inliers x.inliers_count t :=
                  mem_eligOf.mpr ⟨hy3.1, hy3.2.1, by omega⟩
                rw [hnil] at this
                simp at this
            rw [hall]
          rw [hhead]
          simp [Option.or]
        | some w =>
          have hwmem := List.mem_of_find?_eq_some hE
          have hwpred := List.find?_some hE
          have hw := mem_eligOf.mp hwmem
          have hwmax : ∀ y ∈ eligOf cfg.min_inliers x.inliers_count t,
              y.inliers_count ≤ w.inliers_count := by
            intro y hy
            have := (List.all_eq_true.mp hwpred) y hy
            exact of_decide_eq_true this
          have hwE0 : w ∈ eligOf cfg.min_inliers k t :=
            mem_eligOf.mpr ⟨hw.1, hw.2.1, by omega⟩
          have hgoal : firstBest (x :: eligOf cfg.min_inliers k t) = some w := by
            unfold firstBest
            rw [List.find?_cons]
            have hPx : ((x :: eligOf cfg.min_inliers k t).all
                (fun y => decide (y.inliers_count ≤ x.inliers_count))) = false := by
              rw [List.all_eq_false]
              refine ⟨w, List.mem_cons_of_mem x hwE0, ?_⟩
              intro hdec
              have := of_decide_eq_true hdec
              omega
            rw [hPx]
            have hstep2 : (eligOf cfg.min_inliers k t).find?
                  (fun r => (x :: eligOf cfg.min_inliers k t).all
                    (fun y => decide (y.inliers_count ≤ r.inliers_count)))
                = ((eligOf cfg.min_inliers k t).filter
                    (fun y => decide (x.inliers_count < y.inliers_count))).find?
                  (fun r => (x :: eligOf cfg.min_inliers k t).all
                    (fun y => decide (y.inliers_count ≤ r.inliers_count))) := by
              apply find?_eq_find?_filter
              intro a _ hPa
              have hwa := (List.all_eq_true.mp hPa) w (List.mem_cons_of_mem x hwE0)
              have hwa2 := of_decide_eq_true hwa
              exact decide_eq_true (by omega)
            have hstep3 : (eligOf cfg.min_inliers k t).filter
                  (fun y => decide (x.inliers_count < y.inliers_count))
                = eligOf cfg.min_inliers x.inliers_count t := by
              unfold eligOf
              rw [List.filter_filter]
              apply List.filter_congr
              intro a _
              by_cases ha1 : cfg.min_inliers ≤ a.inliers_count
              · by_cases ha2 : x.inliers_count < a.inliers_count
                · have ha3 : k < a.inliers_count := by omega
                  simp [ha1, ha2, ha3]
                · simp [ha1, ha2]
              · simp [ha1]
            have hstep4 : (eligOf cfg.min_inliers x.inliers_count t).find?
                  (fun r => (x :: eligOf cfg.min_inliers k t).all
                    (fun y => decide (y.inliers_count ≤ r.inliers_count)))
                = firstBest (eligOf cfg.min_inliers x.inliers_count t) := by
              unfold firstBest
              apply find?_congr_mem
              intro a hamem
              have ha := mem_eligOf.mp hamem
              have hiff : ((x :: eligOf cfg.min_inliers k t).all
                    (fun y => decide (y.inliers_count ≤ a.inliers_count))) = true ↔
                  ((eligOf cfg.min_inliers x.inliers_count t).all
                    (fun y => decide (y.inliers_count ≤ a.inliers_count))) = true := by
                constructor
                · intro hall
                  rw [List.all_eq_true] at hall ⊢
                  intro z hz
                  have hz2 := mem_eligOf.mp hz
                  exact hall z (List.mem_cons_of_mem x
                    (mem_eligOf.mpr ⟨hz2.1, hz2.2.1, by omega⟩))
                · intro hall
                  rw [List.all_eq_true] at hall ⊢
                  intro z hz
                  rcases List.mem_cons.mp hz with rfl | hz2
                  · exact decide_eq_true (by omega)
                  · have hz3 := mem_eligOf.mp hz2
                    by_cases hzx : z.inliers_count ≤ x.inliers_count
                    · exact decide_eq_true (by omega)
                    · have : z ∈ eligOf cfg.min_inliers x.inliers_count t :=
                        mem_eligOf.mpr ⟨hz3.1, hz3.2.1, by omega⟩
                      exact hall z this
              cases hlhs : ((x :: eligOf cfg.min_inliers k t).all
                  (fun y => decide (y.inliers_count ≤ a.inliers_count))) <;>
                cases hrhs : ((eligOf cfg.min_inliers x.inliers_count t).all
                  (fun y => decide (y.inliers_count ≤ a.inliers_count))) <;>
                simp_all
            rw [hstep2, hstep3, hstep4, hE]
          rw [hgoal]
          simp [Option.or]
      · rw [if_neg hcond, ih, eligOf_cons_some_neg t hcond]

theorem ransac_match_eq_firstBest_aux (env : CvEnv) (cfg : MatchConfig)
    (pat bg : List Pt) (hm : 1 ≤ cfg.min_inliers)
    (hp : 3 ≤ pat.length) (hb : 3 ≤ bg.length) :
    ransac_match env cfg pat bg = firstBest (candidateResults env cfg pat bg) := by
  rw [ransac_match_eq_grid, if_neg (by omega)]
  have hfold : (hypothesisGrid cfg).foldl
      (fun st h => ransacStep cfg st (evalHypothesis env cfg pat bg h.1 h.2)) (none, 0)
      = ((hypothesisGrid cfg).map
          (fun h => evalHypothesis env cfg pat bg h.1 h.2)).foldl (ransacStep cfg) (none, 0) :=
    (List.foldl_map _ _ _ _).symm
  rw [hfold]
  rw [foldl_ransacStep_eq_firstBest, Option.or_none]
  have helig : eligOf cfg.min_inliers 0
      ((hypothesisGrid cfg).map (fun h => evalHypothesis env cfg pat bg h.1 h.2))
      = candidateResults env cfg pat bg := by
    unfold eligOf candidateResults
    have h0 : ((hypothesisGrid cfg).map
          (fun h => evalHypothesis env cfg pat bg h.1 h.2)).filterMap id
        = (hypothesisGrid cfg).filterMap (fun h => evalHypothesis env cfg pat bg h.1 h.2) := by
      rw [List.filterMap_map]
      rfl
    rw [h0]
    apply List.filter_congr
    intro r _
    by_cases h1 : cfg.min_inliers ≤ r.inliers_count
    · have h2 : 0 < r.inliers_count := by omega
      simp [h1, h2]
    · simp [h1]
  rw [helig]

/-- Claim C4 — selection and tie-break.  For at least one required inlier and
valid input sizes, `ransac_match` returns exactly the first result, in
evaluation order (scale outer loop over the linspace grid, rotation inner loop
over `0, step, 2·step, … < 360`), among the hypotheses whose robust fit met
`min_inliers`, that attains the maximal inlier count: `firstBest` picks the
first list element whose count is greatest. -/
theorem ransac_match_selection (env : CvEnv) (cfg : MatchConfig)
    (pat bg : List Pt) (hm : 1 ≤ cfg.min_inliers)
    (hp : 3 ≤ pat.length) (hb : 3 ≤ bg.length) :
    ransac_match env cfg pat bg = firstBest (candidateResults env cfg pat bg) :=
  ransac_match_eq_firstBest_aux env cfg pat bg hm hp hb

/-- Claim C4 — witness at the concrete round-trip scenario. -/
theorem ransac_match_selection_witness :
    (1 ≤ cfgC1.min_inliers ∧ 3 ≤ patC1.length ∧ 3 ≤ bgC1.length) ∧
    ransac_match envEx cfgC1 patC1 bgC1 = firstBest (candidateResults envEx cfgC1 patC1 bgC1) :=
  ⟨by decide,
   ransac_match_selection envEx cfgC1 patC1 bgC1 (by decide) (by decide) (by decide)⟩

/-- Claim C9 — counterexample to the claimed configuration error.  With the
inverted scale range (2, 1) (min > max), `ransac_match` performs no
validation: it silently runs the grid search over `linspace(2, 1, 2) = [2, 1]`
and returns an ordinary match found at the first grid scale 2 (no error value
of any kind exists in the code). -/
theorem ransac_match_inverted_scale_range_cx :
    cfgC9.scale_max ≤ cfgC9.scale_min ∧
    ransac_match envEx cfgC9 patC9 bgC9 = some resC9 ∧
    resC9.tested_scale = 2 := by
  refine ⟨by with_unfolding_all decide, by with_unfolding_all decide,
    by with_unfolding_all decide⟩

/-- Claim C9 — amended.  A configuration whose scale range has min ≥ max is
not rejected: `ransac_match` performs the ordinary grid search over the
(descending) linspace grid and selects among its candidates exactly as for a
valid range. -/
theorem ransac_match_no_scale_validation (env : CvEnv) (cfg : MatchConfig)
    (pat bg : List Pt) (hrange : cfg.scale_max ≤ cfg.scale_min)
    (hm : 1 ≤ cfg.min_inliers) (hp : 3 ≤ pat.length) (hb : 3 ≤ bg.length) :
    ransac_match env cfg pat bg = firstBest (candidateResults env cfg pat bg) :=
  ransac_match_eq_firstBest_aux env cfg pat bg hm hp hb

/-- Claim C9 — witness at the inverted-range scenario. -/
theorem ransac_match_no_scale_validation_witness :
    (cfgC9.scale_max ≤ cfgC9.scale_min ∧ 1 ≤ cfgC9.min_inliers ∧
     3 ≤ patC9.length ∧ 3 ≤ bgC9.length) ∧
    ransac_match envEx cfgC9 patC9 bgC9 = firstBest (candidateResults envEx cfgC9 patC9 bgC9) :=
  ⟨⟨by with_unfolding_all decide, by decide, by decide, by decide⟩,
   ransac_match_no_scale_validation envEx cfgC9 patC9 bgC9
     (by with_unfolding_all decide) (by decide) (by decide) (by decide)⟩

theorem mem_insertDesc {α : Type} (key : α → ℚ) (x : α) :
    ∀ {l : List α} {z : α}, z ∈ insertDesc key x l ↔ z = x ∨ z ∈ l := by
  intro l
  induction l with
  | nil => intro z; simp [insertDesc]
  | cons y ys ih =>
    intro z
    rw [insertDesc]
    by_cases hk : key x < key y
    · rw [if_pos hk]
      constructor
      · intro hz
        rcases List.mem_cons.mp hz with rfl | hz2
        · exact Or.inr (List.mem_cons_self _ _)
        · rcases ih.mp hz2 with rfl | hz3
          · exact Or.inl rfl
          · exact Or.inr (List.mem_cons_of_mem y hz3)
      · intro hz
        rcases hz with rfl | hz2
        · exact List.mem_cons_of_mem y (ih.mpr (Or.inl rfl))
        · rcases List.mem_cons.mp hz2 with rfl | hz3
          · exact List.mem_cons_self _ _
          · exact List.mem_cons_of_mem y (ih.mpr (Or.inr hz3))
    · rw [if_neg hk]
      simp [List.mem_cons]

theorem perm_insertDesc {α : Type} (key : α → ℚ) (x : α) :
    ∀ (l : List α), (insertDesc key x l).Perm (x :: l) := by
  intro l
  induction l with
  | nil => rw [insertDesc]
  | cons y ys ih =>
    rw [insertDesc]
    by_cases hk : key x < key y
    · rw [if_pos hk]
      exact (List.Perm.cons y ih).trans (List.Perm.swap x y ys)
    · rw [if_neg hk]

theorem perm_sortByKeyDesc {α : Type} (key : α → ℚ) :
    ∀ (l : List α), (sortByKeyDesc key l).Perm l := by
  intro l
  induction l with
  | nil => rfl
  | cons a t ih =>
    have h1 : sortByKeyDesc key (a :: t) = insertDesc key a (sortByKeyDesc key t) := rfl
    rw [h1]
    exact (perm_insertDesc key a (sortByKeyDesc key t)).trans (List.Perm.cons a ih)

theorem sorted_insertDesc {α : Type} (key : α → ℚ) (x : α) :
    ∀ {l : List α}, l.Pairwise (fun u v => key v ≤ key u) →
      (insertDesc key x l).Pairwise (fun u v => key v ≤ key u) := by
  intro l
  induction l with
  | nil => intro _; simp [insertDesc]
  | cons y ys ih =>
    intro hl
    rcases List.pairwise_cons.mp hl with ⟨hy, hys⟩
    rw [insertDesc]
    by_cases hk : key x < key y
    · rw [if_pos hk]
      refine List.pairwise_cons.mpr ⟨?_, ih hys⟩
      intro z hz
      rcases (mem_insertDesc key x).mp hz with rfl | hz2
      · exact le_of_lt hk
      · exact hy z hz2
    · rw [if_neg hk]
      refine List.pairwise_cons.mpr ⟨?_, hl⟩
      intro z hz
      rcases List.mem_cons.mp hz with rfl | hz2
      · exact le_of_not_lt hk
      · exact le_trans (hy z hz2) (le_of_not_lt hk)

theorem sorted_sortByKeyDesc {α : Type} (key : α → ℚ) :
    ∀ (l : List α), (sortByKeyDesc key l).Pairwise (fun u v => key v ≤ key u) := by
  intro l
  induction l with
  | nil => exact List.Pairwise.nil
  | cons a t ih => exact sorted_insertDesc key a ih

theorem stable_insertDesc {α : Type} (key : α → ℚ) (R : α → α → Prop) (x : α) :
    ∀ {l : List α}, l.Pairwise (fun u v => R u v ∨ key v < key u) →
      (∀ y ∈ l, R x y) →
      (insertDesc key x l).Pairwise (fun u v => R u v ∨ key v < key u) := by
  intro l
  induction l with
  | nil => intro _ _; simp [insertDesc]
  | cons y ys ih =>
    intro hl hx
    rcases List.pairwise_cons.mp hl with ⟨hy, hys⟩
    rw [insertDesc]
    by_cases hk : key x < key y
    · rw [if_pos hk]
      refine List.pairwise_cons.mpr ⟨?_, ih hys (fun z hz => hx z (List.mem_cons_of_mem y hz))⟩
      intro z hz
      rcases (mem_insertDesc key x).mp hz with rfl | hz2
      · exact Or.inr hk
      · exact hy z hz2
    · rw [if_neg hk]
      refine List.pairwise_cons.mpr ⟨?_, hl⟩
      intro z hz
      rcases List.mem_cons.mp hz with rfl | hz2
      · exact Or.inl (hx z (List.mem_cons_self _ _))
      · exact Or.inl (hx z (List.mem_cons_of_mem y hz2))

theorem stable_sortByKeyDesc {α : Type} (key : α → ℚ) (R : α → α → Prop) :
    ∀ (l : List α), l.Pairwise R →
      (sortByKeyDesc key l).Pairwise (fun u v => R u v ∨ key v < key u) := by
  intro l
  induction l with
  | nil => intro _; exact List.Pairwise.nil
  | cons a t ih =>
    intro hl
    rcases List.pairwise_cons.mp hl with ⟨ha, ht⟩
    refine stable_insertDesc key R a (ih ht) ?_
    intro y hy
    exact ha y ((perm_sortByKeyDesc key t).mem_iff.mp hy)

theorem pairwise_fst_lt_enum {α : Type} (l : List α) :
    l.enum.Pairwise (fun a b => a.1 < b.1) := by
  rw [List.pairwise_iff_getElem]
  intro i j hi hj hij
  rw [List.getElem_enum, List.getElem_enum]
  simpa using hij

/-- Claim C6 — catalog-wide search.  `find_constellation_matches` returns a
permutation of the matches collected in catalog order, sorted so that
consecutive pairs either strictly decrease in `inliers_ratio` or tie with
their catalog indices in increasing order (the stable tie-break), and every
returned match comes from a catalog entry with at least 3 points on which
`ransac_match` succeeded. -/
theorem find_constellation_matches_spec (env : CvEnv) (cfg : MatchConfig)
    (catalog : Catalog) (bg : List Pt) :
    (find_constellation_matches env cfg catalog bg).Perm
      (collectedMatches env cfg catalog bg) ∧
    (find_constellation_matches env cfg catalog bg).Pairwise
      (fun a b => b.2.inliers_ratio < a.2.inliers_ratio ∨
        (b.2.inliers_ratio = a.2.inliers_ratio ∧ a.1 < b.1)) ∧
    ∀ e ∈ find_constellation_matches env cfg catalog bg,
      ∃ nm pts, catalog[e.1]? = some (nm, pts) ∧ 3 ≤ pts.length ∧
        ransac_match env cfg pts bg = some e.2 := by
  have hperm : (find_constellation_matches env cfg catalog bg).Perm
      (collectedMatches env cfg catalog bg) :=
    perm_sortByKeyDesc _ _
  refine ⟨hperm, ?_, ?_⟩
  · have hcoll : (collectedMatches env cfg catalog bg).Pairwise (fun a b => a.1 < b.1) := by
      unfold collectedMatches
      refine (pairwise_fst_lt_enum catalog).filterMap _ ?_
      intro a a2 hlt b hb b2 hb2
      have hb1 : b.1 = a.1 := by
        by_cases hl3 : a.2.2.length < 3
        · rw [if_pos hl3] at hb; simp at hb
        · rw [if_neg hl3] at hb
          rcases Option.map_eq_some'.mp hb with ⟨r, _, hr2⟩
          rw [← hr2]
      have hb21 : b2.1 = a2.1 := by
        by_cases hl3 : a2.2.2.length < 3
        · rw [if_pos hl3] at hb2; simp at hb2
        · rw [if_neg hl3] at hb2
          rcases Option.map_eq_some'.mp hb2 with ⟨r, _, hr2⟩
          rw [← hr2]
      omega
    have hstab := stable_sortByKeyDesc (fun e => e.2.inliers_ratio)
      (fun a b => a.1 < b.1) (collectedMatches env cfg catalog bg) hcoll
    have hsort := sorted_sortByKeyDesc (fun e => e.2.inliers_ratio)
      (collectedMatches env cfg catalog bg)
    refine (hstab.and hsort).imp ?_
    intro a b hab
    rcases hab with ⟨h1, h2⟩
    by_cases hlt : b.2.inliers_ratio < a.2.inliers_ratio
    · exact Or.inl hlt
    · have heq : b.2.inliers_ratio = a.2.inliers_ratio := le_antisymm h2 (le_of_not_lt hlt)
      rcases h1 with hidx | habs
      · exact Or.inr ⟨heq, hidx⟩
      · exact absurd habs hlt
  · intro e he
    have hmem := hperm.mem_iff.mp he
    unfold collectedMatches at hmem
    rcases List.mem_filterMap.mp hmem with ⟨a, ha, hfa⟩
    by_cases hl3 : a.2.2.length < 3
    · rw [if_pos hl3] at hfa; simp at hfa
    · rw [if_neg hl3] at hfa
      rcases Option.map_eq_some'.mp hfa with ⟨r, hr, hr2⟩
      have ha2 : catalog[a.1]? = some a.2 := List.mem_enum_iff_getElem?.mp ha
      refine ⟨a.2.1, a.2.2, ?_, by omega, ?_⟩
      · rw [← hr2]
        simpa using ha2
      · rw [← hr2]
        simpa using hr

/-- Claim C6 — witness-style concrete check: a two-entry catalog whose entries
produce matches with identical `inliers_ratio` comes back in catalog order. -/
theorem find_constellation_matches_tie_example :
    find_constellation_matches envEx cfgC1 [(nmOrion, patC1), (qMiss, patC1)] bgC1
      = [(0, resC1), (1, resC1)] := by
  with_unfolding_all decide

/-- Claim C7 — counterexample to the claimed distinct failure reasons.  On a
one-entry catalog whose entry has a single point, the query missing from the
catalog and the query hitting the undersized entry are two different failure
causes (the lookups differ), yet `find_specific_constellation` returns the
same undistinguished value `None` for both; the distinct reasons exist only as
verbose console prints, not in the return value. -/
theorem find_specific_failures_cx :
    get_constellation_by_name catC7 qMiss = none ∧
    get_constellation_by_name catC7 qOrion = some (0, nmOrion, [(0, 0)]) ∧
    find_specific_constellation envEx cfgC1 catC7 bgC1 qMiss = none ∧
    find_specific_constellation envEx cfgC1 catC7 bgC1 qOrion = none := by
  refine ⟨?_, ?_, ?_, ?_⟩ <;> with_unfolding_all decide

/-- Claim C7 — amended.  The case-insensitive substring lookup does
distinguish the two failure causes internally, but
`find_specific_constellation` collapses both the name-not-found case and the
insufficient-points case to the same return value `None`. -/
theorem find_specific_failures_indistinct (env : CvEnv) (cfg : MatchConfig)
    (catalog : Catalog) (bg : List Pt) (q1 q2 : String)
    (h1 : get_constellation_by_name catalog q1 = none)
    (h2 : ∃ i nm pts, get_constellation_by_name catalog q2 = some (i, nm, pts) ∧
      pts.length < 3) :
    find_specific_constellation env cfg catalog bg q1 = none ∧
    find_specific_constellation env cfg catalog bg q2 = none := by
  constructor
  · unfold find_specific_constellation
    rw [h1]
  · rcases h2 with ⟨i, nm, pts, heq, hlen⟩
    unfold find_specific_constellation
    rw [heq]
    simp only [if_pos hlen]

/-- Claim C7 — witness at the concrete one-entry catalog. -/
theorem find_specific_failures_indistinct_witness :
    get_constellation_by_name catC7 qMiss = none ∧
    (∃ i nm pts, get_constellation_by_name catC7 qOrion = some (i, nm, pts) ∧
      pts.length < 3) ∧
    (find_specific_constellation envEx cfgC1 catC7 bgC1 qMiss = none ∧
     find_specific_constellation envEx cfgC1 catC7 bgC1 qOrion = none) :=
  ⟨by with_unfolding_all decide,
   ⟨0, nmOrion, [(0, 0)], by with_unfolding_all decide, by decide⟩,
   find_specific_failures_indistinct envEx cfgC1 catC7 bgC1 qMiss qOrion
     (by with_unfolding_all decide)
     ⟨0, nmOrion, [(0, 0)], by with_unfolding_all decide, by decide⟩⟩

end ConstellationTools

namespace StarDetection

/-- Claim C8 — automated minimum-size filtering.  Component areas produced by
`cv2.connectedComponentsWithStats` are positive integers; under that sole
assumption the filter of `process_image` in automated mode keeps exactly the
components whose area is at least `max(1, maxComponentArea / 1000)` — a
component exactly at the cutoff is retained, one strictly below is dropped —
and the minimum size defaults to 1 when no component exists.  (The source
computes the unclamped `maxComponentArea / 1000`; on integer areas ≥ 1 this
keeps exactly the same components as the clamped cutoff of the claim.) -/
theorem process_image_automated_filter (areas : List ℕ)
    (hpos : ∀ a ∈ areas, 1 ≤ a) :
    filtered_components areas = claimed_filtered_components areas ∧
    (areas = [] → automated_min_size areas = 1) := by
  constructor
  · unfold filtered_components claimed_filtered_components
    apply List.filter_congr
    intro ia hia
    have hmem : ia.2 ∈ areas := by
      have h := List.mem_enum_iff_getElem?.mp hia
      exact ConstellationTools.mem_of_getElem?_some h
    have h1 : (1 : ℚ) ≤ (ia.2 : ℚ) := by exact_mod_cast hpos ia.2 hmem
    unfold automated_min_size
    by_cases hnil : areas = []
    · subst hnil
      simp at hia
    · rw [if_neg hnil]
      apply decide_eq_decide.mpr
      constructor
      · intro h
        exact max_le h1 h
      · intro h
        exact le_trans (le_max_right _ _) h
  · intro h
    unfold automated_min_size
    rw [if_pos h]

/-- Claim C8 — witness: with areas [2000, 2, 1] the cutoff is 2; the area-2
component (exactly at the cutoff) is retained and the area-1 component
(strictly below) is dropped. -/
theorem process_image_automated_filter_witness :
    (∀ a ∈ areasEx, 1 ≤ a) ∧
    (filtered_components areasEx = claimed_filtered_components areasEx ∧
      (areasEx = [] → automated_min_size areasEx = 1)) ∧
    filtered_components areasEx = [(0, 2000), (1, 2)] :=
  ⟨by decide, process_image_automated_filter areasEx (by decide),
   by with_unfolding_all decide⟩

end StarDetection
